import Mathlib

/-!
# Verification of `to-do.c`

A shallow embedding of the terminal to-do list program `src/to-do.c` and the
theorems that settle the properties stated about it.

The program keeps its state in two globals (`taskList`, `taskCount`) and talks
to the user through `stdin` and `stdout`.  The embedding makes all four
explicit in one record, `World`, and every C function becomes a total function
`World → World`.

Conventions of the embedding:

* one element of `stdin` is one `char` delivered by the stream; the end of the
  list is end-of-file, and end-of-file is permanent (a pipe or a file);
* `events` is the trace of what the program emitted, one entry per `printf`
  call and one per `system` call, in program order;
* a `char` buffer is represented by the C string it holds (the characters
  before the first NUL);
* `int` values are `Int`.  `taskCount` and `isComplete` never leave a small
  range; the value stored by `scanf("%d")` is reduced to 32 bits.
-/

namespace ToDo

/-! ## Constants and data structure (`to-do.c` lines 8-18) -/

/-- The constant `MAX_TASKS`, 50 in the source. -/
def MAX_TASKS : Int := 50

/-- The constant `MAX_LENGTH`, 150 in the source. -/
def MAX_LENGTH : Nat := 150

/-- The C `struct Task`: the description as the C string held in
`char description[MAX_LENGTH]`, and the `int isComplete` flag
(0 = incomplete, 1 = complete). -/
structure Task where
  description : List Char
  isComplete : Int
deriving DecidableEq, Repr

/-- One thing the program emitted. -/
inductive Event where
  | printf (s : String)
  | system (cmd : String)
deriving DecidableEq, Repr

/-- The globals of the program together with its two streams. -/
structure World where
  taskList : List Task
  taskCount : Int
  stdin : List Char
  events : List Event
deriving DecidableEq, Repr

/-- A zero-initialised `struct Task`, as static storage holds at start-up. -/
def zeroTask : Task := { description := [], isComplete := 0 }

/-- The program state when `main` starts, reading from the stream `input`:
`taskList` is `MAX_TASKS` zeroed slots and `taskCount = 0`. -/
def initWorld (input : List Char) : World :=
  { taskList := List.replicate 50 zeroTask, taskCount := 0, stdin := input, events := [] }

/-- The array read `taskList[i]`. -/
def taskAt (w : World) (i : Nat) : Task := w.taskList.getD i zeroTask

/-! ## The C library calls the program uses -/

/-- The call `printf(s)` with its arguments already formatted into `s`. -/
def print (s : String) (w : World) : World :=
  { w with events := w.events ++ [Event.printf s] }

/-- The NUL character that ends a C string. -/
def NUL : Char := Char.ofNat 0

/-- The string a `char` buffer holds once `chars` followed by a terminating
NUL have been stored in it: everything before the first NUL. -/
def cString (chars : List Char) : List Char := chars.takeWhile (fun c => c != NUL)

/-- The characters `fgets` stores when it may store at most `k` of them: it
stops after a newline, which it keeps, at end-of-file, or after `k`
characters.  Returns the characters read and the rest of the stream. -/
def fgetsRead : Nat → List Char → List Char × List Char
  | 0, inp => ([], inp)
  | _ + 1, [] => ([], [])
  | k + 1, c :: cs =>
    if c = '\n' then ([c], cs)
    else ((c :: (fgetsRead k cs).1), (fgetsRead k cs).2)

/-- The call `fgets(buf, n, stdin)`: `none` is the `NULL` result at end-of-file
with nothing read (the buffer is then left as it was); otherwise at most
`n - 1` characters are stored. -/
def fgets (n : Nat) (inp : List Char) : Option (List Char × List Char) :=
  match inp with
  | [] => none
  | _ :: _ => some (fgetsRead (n - 1) inp)

/-- The call `strcspn(s, reject)`: the length of the longest initial segment of
the C string `s` with no character of `reject`. -/
def strcspn (s reject : List Char) : Nat :=
  (s.takeWhile (fun c => !reject.contains c)).length

/-- The assignment `s[k] = 0` on a buffer holding the C string `s`, for
`k ≤ strlen(s)`: the string is cut at `k`. -/
def putNul (s : List Char) (k : Nat) : List Char := s.take k

/-- The C `isspace` in the "C" locale. -/
def isspace (c : Char) : Bool :=
  c = ' ' || c = '\t' || c = '\n' || c = Char.ofNat 11 || c = Char.ofNat 12 || c = '\r'

/-- The C `isdigit`. -/
def isdigit (c : Char) : Bool := '0' ≤ c && c ≤ '9'

/-- The value of a run of decimal digits. -/
def digitsValue (ds : List Char) : Int :=
  ds.foldl (fun acc c => acc * 10 + ((c.toNat : Int) - 48)) 0

/-- Storing a converted value into an `int`: reduction to 32 bits, two's
complement. -/
def toInt32 (v : Int) : Int := (v + 2147483648) % 4294967296 - 2147483648

/-- The call `scanf("%d", &x)`.  White space is skipped, an optional sign and
then the longest run of digits are consumed.  The first component is
`some v` when the call returns 1 and stores `v`, and `none` when it returns
anything else (0 on a matching failure, `EOF` at end-of-file): the program only
ever tests the result against 1.  The second component is what is left of the
stream; the character that stopped the conversion is still in it. -/
def scanfInt (inp : List Char) : Option Int × List Char :=
  match inp.dropWhile isspace with
  | [] => (none, [])
  | c :: cs =>
    let neg := (c == '-')
    let body := if c = '-' ∨ c = '+' then cs else c :: cs
    let ds := body.takeWhile isdigit
    let rest := body.dropWhile isdigit
    match ds with
    | [] => (none, rest)
    | _ :: _ =>
      (some (toInt32 (if neg then - digitsValue ds else digitsValue ds)), rest)

/-- The body of `getchar` loop of `clearInputBuffer` on the stream: characters
are discarded up to and including the first newline, or up to end-of-file. -/
def skipLine : List Char → List Char
  | [] => []
  | c :: cs => if c = '\n' then cs else skipLine cs

/-! ## The functions of the program -/

/-- C function `clearInputBuffer` (lines 221-224). -/
def clearInputBuffer (w : World) : World :=
  { w with stdin := skipLine w.stdin }

/-- C function `clearScreen` (lines 233-239), the branch taken off Windows. -/
def clearScreen (w : World) : World :=
  { w with events := w.events ++ [Event.system "clear"] }

/-- C function `pauseScreen` (lines 248-251). -/
def pauseScreen (w : World) : World :=
  clearInputBuffer (print "\n\nPress Enter to continue..." w)

/-- C function `printMenu` (lines 92-99). -/
def printMenu (w : World) : World :=
  print "Enter your choice: "
    (print "4. Exit\n"
      (print "3. Mark a task as complete\n"
        (print "2. View all tasks\n"
          (print "1. Add a new task\n"
            (print "\n--- C To-Do List ---\n" w)))))

/-- The description `addTask` leaves in the slot after `fgets` stored `chars`:
`description[strcspn(description, "\n")] = 0`. -/
def stripNewline (chars : List Char) : List Char :=
  putNul (cString chars) (strcspn (cString chars) ['\n'])

/-- C function `addTask` (lines 108-134). -/
def addTask (w : World) : World :=
  if w.taskCount ≥ MAX_TASKS then
    print "Sorry, the to-do list is full.\n" w
  else
    let w1 := print "Enter task description: " w
    match fgets MAX_LENGTH w1.stdin with
    | some (chars, rest) =>
      let slot := w1.taskCount.toNat
      let t : Task := { description := stripNewline chars, isComplete := 0 }
      print "Task added!\n"
        { w1 with taskList := w1.taskList.set slot t
                  taskCount := w1.taskCount + 1
                  stdin := rest }
    | none => print "Error reading input. Task not added.\n" w1

/-- The text of one `printf("%d. [%s] %s\n", i + 1, ..., ...)` of `viewTasks`,
for the loop index `i`. -/
def taskLine (i : Nat) (t : Task) : String :=
  toString (i + 1) ++ ". [" ++ (if t.isComplete = 1 then "X" else " ") ++ "] "
    ++ String.mk t.description ++ "\n"

/-- C function `viewTasks` (lines 143-164). -/
def viewTasks (w : World) : World :=
  let w1 := print "\n--- Your Tasks ---\n" w
  if w1.taskCount = 0 then
    print "You have no tasks.\n" w1
  else
    (List.range w1.taskCount.toNat).foldl
      (fun acc i => print (taskLine i (taskAt acc i)) acc) w1

/-- C function `markTaskComplete` (lines 173-210). -/
def markTaskComplete (w : World) : World :=
  if w.taskCount = 0 then
    print "You have no tasks to mark.\n" w
  else
    let w1 := viewTasks w
    let w2 := print "\nWhich task number do you want to mark as complete? " w1
    match scanfInt w2.stdin with
    | (none, rest) =>
      clearInputBuffer
        (print "Error: Invalid input. Please enter a number.\n" { w2 with stdin := rest })
    | (some taskNumber, rest) =>
      let w3 := clearInputBuffer { w2 with stdin := rest }
      if taskNumber < 1 ∨ taskNumber > w3.taskCount then
        print "Invalid task number.\n" w3
      else
        let index := (taskNumber - 1).toNat
        if (taskAt w3 index).isComplete = 1 then
          print "That task is already complete.\n" w3
        else
          print "Task marked as complete!\n"
            { w3 with taskList :=
                w3.taskList.set index { taskAt w3 index with isComplete := 1 } }

/-- One pass through the body of the `do ... while` loop of `main`
(lines 38-81).  Returns the world after the pass and the value of `choice`
the loop condition then tests. -/
def mainBody (w : World) : World × Int :=
  let w1 := printMenu (clearScreen w)
  match scanfInt w1.stdin with
  | (none, rest) =>
    (clearInputBuffer
      (print "Error: Invalid input. Please enter a number (1-4).\n" { w1 with stdin := rest }),
     0)
  | (some choice, rest) =>
    let w2 := clearInputBuffer { w1 with stdin := rest }
    let w3 :=
      if choice = 1 then addTask (clearScreen w2)
      else if choice = 2 then viewTasks (clearScreen w2)
      else if choice = 3 then markTaskComplete (clearScreen w2)
      else if choice = 4 then print "\nGoodbye!\n" w2
      else print "\nInvalid choice. Please pick a number from 1 to 4.\n" w2
    (if choice ≠ 4 then pauseScreen w3 else w3, choice)

/-- The `do ... while (choice != 4)` loop of `main` followed by `return 0`,
run for at most `fuel` passes.  `some (w, 0)` is `main` returning 0 in the
world `w`; `none` means the loop was still running after `fuel` passes. -/
def mainLoop : Nat → World → Option (World × Int)
  | 0, _ => none
  | fuel + 1, w =>
    if (mainBody w).2 ≠ 4 then mainLoop fuel (mainBody w).1
    else some ((mainBody w).1, 0)

/-- C function `main` (lines 34-84) on the input stream `input`. -/
def main (fuel : Nat) (input : List Char) : Option (World × Int) :=
  mainLoop fuel (initWorld input)

/-! ## Definitions used to state the properties -/

/-- The store invariant: the array has its `MAX_TASKS` slots and
`0 ≤ taskCount ≤ MAX_TASKS`. -/
def WF (w : World) : Prop :=
  w.taskList.length = 50 ∧ 0 ≤ w.taskCount ∧ w.taskCount ≤ MAX_TASKS

instance (w : World) : Decidable (WF w) := by
  unfold WF
  infer_instance

/-- The text of the first line of a stream, without its line terminator. -/
def lineText (inp : List Char) : List Char := inp.takeWhile (fun c => c != '\n')

/-- A store with room for a task whose input stream holds a line with a NUL character in it. -/
def nulLineWorld : World := initWorld ['a', NUL, 'b', '\n']

/-- A store with room whose input stream holds the line `Buy milk`. -/
def milkWorld : World := initWorld "Buy milk\n".toList

/-- The prompt of `markTaskComplete`. -/
def markPrompt : Event := Event.printf "\nWhich task number do you want to mark as complete? "

/-- A full store with a line waiting on the input stream. -/
def fullWorld : World :=
  { taskList := List.replicate 50 zeroTask, taskCount := 50, stdin := "late\n".toList,
    events := [] }

/-- The store holding the single incomplete task `A`, reading from `input`. -/
def oneTaskWorld (input : List Char) : World :=
  { addTask (initWorld "A\n".toList) with stdin := input, events := [] }

/-- The world in which the `switch` of `main` runs: the menu printed, the choice read and the
rest of its line discarded. -/
def afterChoice (w : World) (rest : List Char) : World :=
  clearInputBuffer { printMenu (clearScreen w) with stdin := rest }

/-- The two globals of a world. -/
def store (w : World) : List Task × Int := (w.taskList, w.taskCount)

/-- The states of the loop of `main`: a world together with the value of `choice`, at the start
of the program and after each pass through the loop body that the loop condition allows. -/
inductive Reachable : World → Int → Prop
  | start (input : List Char) : Reachable (initWorld input) 0
  | pass (w : World) (choice : Int) :
      Reachable w choice → choice ≠ 4 → Reachable (mainBody w).1 (mainBody w).2

/-- Every task complete in `w` is, in `w2`, still at its position, with its description, and
complete. -/
def StaysComplete (w w2 : World) : Prop :=
  ∀ i : Nat, (i : Int) < w.taskCount → (taskAt w i).isComplete = 1 →
    (i : Int) < w2.taskCount ∧ (taskAt w2 i).description = (taskAt w i).description ∧
      (taskAt w2 i).isComplete = 1

/-- If `w2` has another number of tasks than `w`, it has exactly one more, and that new last
task is incomplete. -/
def CreatesIncomplete (w w2 : World) : Prop :=
  w2.taskCount ≠ w.taskCount →
    w2.taskCount = w.taskCount + 1 ∧ (taskAt w2 w.taskCount.toNat).isComplete = 0

/-- What one operation of the program can do to the two globals: nothing, write a fresh
incomplete task into the slot `taskCount` and count it, or set the flag of a counted task. -/
inductive StoreStep (s : List Task × Int) : List Task × Int → Prop
  | same : StoreStep s s
  | add (d : List Char) : s.2 < MAX_TASKS →
      StoreStep s (s.1.set s.2.toNat { description := d, isComplete := 0 }, s.2 + 1)
  | mark (i : Nat) : (i : Int) < s.2 →
      StoreStep s (s.1.set i { s.1.getD i zeroTask with isComplete := 1 }, s.2)

/-- The world after `addTask` has run once for each stream of `inputs`, in order, the call
number `i` finding the stream number `i` on `stdin`. -/
def addEach (w : World) : List (List Char) → World
  | [] => w
  | inp :: more => addEach (addTask { w with stdin := inp }) more

/-- On the stream `inp`, the `fgets` of `addTask` succeeds and the description `addTask` then
stores is `d`. -/
def ReadsDescription (inp d : List Char) : Prop :=
  (fgets MAX_LENGTH inp).map (fun r => stripNewline r.1) = some d

instance (inp d : List Char) : Decidable (ReadsDescription inp d) := by
  unfold ReadsDescription
  infer_instance

/-- The store holding the single task `A`, already complete, reading from `input`. -/
def doneTaskWorld (input : List Char) : World :=
  { markTaskComplete (oneTaskWorld "1\n".toList) with stdin := input, events := [] }

/-! ## Auxiliary lemmas and the properties -/

/-- The loop of `viewTasks` only appends one line per index to the trace. -/
theorem foldl_print_lines (l : List Nat) (w : World) :
    l.foldl (fun acc i => print (taskLine i (taskAt acc i)) acc) w
      = { w with events :=
            w.events ++ l.map (fun i => Event.printf (taskLine i (taskAt w i))) } := by
  induction l generalizing w with
  | nil => simp
  | cons a l ih =>
    rw [List.foldl_cons, ih]
    simp [print, taskAt]

/-- Closed form of `viewTasks`: the header, then the no-tasks message or one line per counted
slot. -/
theorem viewTasks_eq (w : World) :
    viewTasks w = { w with events := w.events ++ Event.printf "\n--- Your Tasks ---\n" ::
      (if w.taskCount = 0 then [Event.printf "You have no tasks.\n"]
       else (List.range w.taskCount.toNat).map
         (fun i => Event.printf (taskLine i (taskAt w i)))) } := by
  unfold viewTasks
  have hc : (print "\n--- Your Tasks ---\n" w).taskCount = w.taskCount := rfl
  simp only [hc, foldl_print_lines]
  by_cases h : w.taskCount = 0
  · simp [print, h]
  · simp [print, h, taskAt]

/-- The description kept from the stored characters is their part before the first NUL or
newline. -/
theorem stripNewline_eq (chars : List Char) :
    stripNewline chars = chars.takeWhile (fun c => c != NUL && c != '\n') := by
  unfold stripNewline putNul strcspn cString
  induction chars with
  | nil => simp
  | cons c cs ih =>
    by_cases h1 : c = NUL
    · simp [h1]
    · by_cases h2 : c = '\n'
      · have hn : ¬ ('\n' = NUL) := by decide
        subst h2
        simp [hn, List.takeWhile_cons]
      · simp [h1, h2, List.takeWhile_cons]
        simpa using ih

/-- Cutting what `fgets` read at a character class that excludes the newline is cutting the
stream itself, then keeping `k` characters. -/
theorem takeWhile_fgetsRead (q : Char → Bool) (hq : q '\n' = false) :
    ∀ (k : Nat) (inp : List Char), (fgetsRead k inp).1.takeWhile q = (inp.takeWhile q).take k
  | 0, inp => by simp [fgetsRead]
  | _ + 1, [] => by simp [fgetsRead]
  | k + 1, c :: cs => by
    by_cases hc : c = '\n'
    · simp [fgetsRead, hc, hq, List.takeWhile_cons]
    · have ih := takeWhile_fgetsRead q hq k cs
      by_cases hqc : q c = true
      · simp [fgetsRead, hc, hqc, List.takeWhile_cons, ih]
      · simp [fgetsRead, hc, hqc, List.takeWhile_cons]

/-- Cutting at a character class and keeping `k` characters commute. -/
theorem takeWhile_take_comm (q : Char → Bool) :
    ∀ (k : Nat) (l : List Char), (l.take k).takeWhile q = (l.takeWhile q).take k
  | 0, l => by simp
  | _ + 1, [] => by simp
  | k + 1, c :: cs => by
    by_cases hqc : q c = true
    · simp [hqc, List.takeWhile_cons, takeWhile_take_comm q k cs]
    · simp [hqc, List.takeWhile_cons]

/-- The description `addTask` derives from a stream is the C string of its first line,
terminator stripped, cut to `k` characters. -/
theorem description_read (inp : List Char) (k : Nat) :
    stripNewline (fgetsRead k inp).1 = cString ((lineText inp).take k) := by
  rw [stripNewline_eq, takeWhile_fgetsRead _ (by decide)]
  unfold cString lineText
  rw [takeWhile_take_comm, List.takeWhile_takeWhile]
  congr 2
  funext c
  by_cases h1 : c = NUL <;> by_cases h2 : c = '\n' <;> simp [h1, h2]

/-- A text without NUL is the C string it is stored as. -/
theorem cString_of_no_nul (l : List Char) (h : NUL ∉ l) : cString l = l := by
  unfold cString
  rw [List.takeWhile_eq_self_iff]
  intro c hc
  simp only [bne_iff_ne, ne_eq]
  rintro rfl
  exact h hc

/-- Closed form of `addTask` when there is room and the stream is not at end-of-file. -/
theorem addTask_eq_of_room (w : World) (hroom : w.taskCount < MAX_TASKS) (hin : w.stdin ≠ []) :
    addTask w =
      { taskList := w.taskList.set w.taskCount.toNat
          { description := cString ((lineText w.stdin).take 149), isComplete := 0 }
        taskCount := w.taskCount + 1
        stdin := (fgetsRead 149 w.stdin).2
        events := w.events ++
          [Event.printf "Enter task description: ", Event.printf "Task added!\n"] } := by
  obtain ⟨tl, tc, inp, ev⟩ := w
  cases inp with
  | nil => exact absurd rfl hin
  | cons c cs =>
    have h : ¬ (tc ≥ MAX_TASKS) := not_le.mpr hroom
    simp only [addTask, h, if_false, print, fgets, MAX_LENGTH, description_read]
    simp

/-- Closed form of `addTask` on a full list. -/
theorem addTask_eq_of_full (w : World) (hfull : w.taskCount ≥ MAX_TASKS) :
    addTask w =
      { w with events := w.events ++ [Event.printf "Sorry, the to-do list is full.\n"] } := by
  simp [addTask, hfull, print]

/-- Counterexample to C1 as stated: on the input line `a NUL b` the stored description is `a`,
not the three characters of the line. -/
theorem addTask_description_not_whole_line :
    WF nulLineWorld ∧ nulLineWorld.taskCount < MAX_TASKS ∧ nulLineWorld.stdin ≠ [] ∧
    (taskAt (addTask nulLineWorld) nulLineWorld.taskCount.toNat).description = ['a'] ∧
    (lineText nulLineWorld.stdin).take 149 = ['a', NUL, 'b'] ∧
    (taskAt (addTask nulLineWorld) nulLineWorld.taskCount.toNat).description
      ≠ (lineText nulLineWorld.stdin).take 149 := by
  decide

/-- C1 (amended): in a store with room (`taskCount < 50`) and an input stream not at end-of-file,
`addTask` reports `Task added!`, the count grows by exactly one, the tasks at the old positions are
unchanged, and the new last task is incomplete with, as description, the C string held by the
input line stripped of its line terminator and cut to 149 characters: that text up to its first
NUL character, hence the text itself when it has no NUL. -/
theorem addTask_appends_task (w : World) (hwf : WF w) (hroom : w.taskCount < MAX_TASKS)
    (hin : w.stdin ≠ []) :
    (addTask w).events = w.events ++
      [Event.printf "Enter task description: ", Event.printf "Task added!\n"] ∧
    (addTask w).taskCount = w.taskCount + 1 ∧
    (∀ i : Nat, (i : Int) < w.taskCount → taskAt (addTask w) i = taskAt w i) ∧
    (taskAt (addTask w) w.taskCount.toNat).isComplete = 0 ∧
    (taskAt (addTask w) w.taskCount.toNat).description = cString ((lineText w.stdin).take 149) ∧
    (NUL ∉ (lineText w.stdin).take 149 →
      (taskAt (addTask w) w.taskCount.toNat).description = (lineText w.stdin).take 149) := by
  obtain ⟨hlen, h0, _⟩ := hwf
  have hslot : w.taskCount.toNat < w.taskList.length := by
    unfold MAX_TASKS at hroom
    omega
  rw [addTask_eq_of_room w hroom hin]
  refine ⟨rfl, rfl, ?_, ?_, ?_, ?_⟩
  · intro i hi
    have hne : w.taskCount.toNat ≠ i := by omega
    simp [taskAt, List.getElem?_set, hne]
  · simp [taskAt, hslot]
  · simp [taskAt, hslot]
  · intro hnul
    simp [taskAt, hslot, cString_of_no_nul _ hnul]

/-- Witness for C1 (amended): adding the line `Buy milk` to the fresh store. -/
theorem addTask_appends_task_witness :
    (addTask milkWorld).events =
      [Event.printf "Enter task description: ", Event.printf "Task added!\n"] ∧
    (addTask milkWorld).taskCount = 1 ∧
    (taskAt (addTask milkWorld) 0).isComplete = 0 ∧
    (taskAt (addTask milkWorld) 0).description = "Buy milk".toList :=
  have h := addTask_appends_task milkWorld (by decide) (by decide) (by decide)
  ⟨h.1, h.2.1, h.2.2.2.1, (h.2.2.2.2.2 (by decide))⟩

/-- The function `viewTasks` does not write `taskList`. -/
theorem viewTasks_taskList (w : World) : (viewTasks w).taskList = w.taskList := by
  rw [viewTasks_eq]

/-- The function `viewTasks` does not write `taskCount`. -/
theorem viewTasks_taskCount (w : World) : (viewTasks w).taskCount = w.taskCount := by
  rw [viewTasks_eq]

/-- The function `viewTasks` reads nothing. -/
theorem viewTasks_stdin (w : World) : (viewTasks w).stdin = w.stdin := by
  rw [viewTasks_eq]

/-- Closed form of `markTaskComplete` on an empty list. -/
theorem markTaskComplete_eq_of_empty (w : World) (h : w.taskCount = 0) :
    markTaskComplete w =
      { w with events := w.events ++ [Event.printf "You have no tasks to mark.\n"] } := by
  simp [markTaskComplete, h, print]

/-- Closed form of `markTaskComplete` on a non-empty list when `scanf` stores the number `p`. -/
theorem markTaskComplete_eq_of_number (w : World) (p : Int) (rest : List Char)
    (hne : w.taskCount ≠ 0) (hscan : scanfInt w.stdin = (some p, rest)) :
    markTaskComplete w =
      if p < 1 ∨ p > w.taskCount then
        { w with stdin := skipLine rest
                 events := (viewTasks w).events ++
                   [markPrompt, Event.printf "Invalid task number.\n"] }
      else if (taskAt w (p - 1).toNat).isComplete = 1 then
        { w with stdin := skipLine rest
                 events := (viewTasks w).events ++
                   [markPrompt, Event.printf "That task is already complete.\n"] }
      else
        { w with taskList := w.taskList.set (p - 1).toNat
                   { taskAt w (p - 1).toNat with isComplete := 1 }
                 stdin := skipLine rest
                 events := (viewTasks w).events ++
                   [markPrompt, Event.printf "Task marked as complete!\n"] } := by
  unfold markTaskComplete
  rw [if_neg hne]
  simp only [print, clearInputBuffer, viewTasks_stdin, viewTasks_taskCount, viewTasks_taskList,
    hscan, taskAt, markPrompt]
  split_ifs <;> simp

/-- Closed form of `markTaskComplete` on a non-empty list when `scanf` converts nothing. -/
theorem markTaskComplete_eq_of_malformed (w : World) (rest : List Char)
    (hne : w.taskCount ≠ 0) (hscan : scanfInt w.stdin = (none, rest)) :
    markTaskComplete w =
      { w with stdin := skipLine rest
               events := (viewTasks w).events ++
                 [markPrompt, Event.printf "Error: Invalid input. Please enter a number.\n"] } := by
  unfold markTaskComplete
  rw [if_neg hne]
  simp only [print, clearInputBuffer, viewTasks_stdin, viewTasks_taskCount, viewTasks_taskList,
    hscan, markPrompt]
  simp

/-- Reading the slot just written. -/
theorem getD_set_self (tl : List Task) (i : Nat) (t d : Task) (h : i < tl.length) :
    (tl.set i t).getD i d = t := by
  simp [h]

/-- Reading another slot than the one written. -/
theorem getD_set_other (tl : List Task) (i j : Nat) (t d : Task) (h : i ≠ j) :
    (tl.set i t).getD j d = tl.getD j d := by
  simp [List.getElem?_set, h]

/-- C2: in a full store (`taskCount = 50`) `addTask` emits only the list-is-full message,
consumes nothing of the input stream and leaves the count and every task as they were. -/
theorem addTask_full_unchanged (w : World) (hfull : w.taskCount = MAX_TASKS) :
    (addTask w).events = w.events ++ [Event.printf "Sorry, the to-do list is full.\n"] ∧
    (addTask w).stdin = w.stdin ∧
    (addTask w).taskCount = w.taskCount ∧
    (addTask w).taskList = w.taskList := by
  rw [addTask_eq_of_full w (le_of_eq hfull.symm)]
  exact ⟨rfl, rfl, rfl, rfl⟩

/-- Witness for C2: a full store with the line `late` waiting. -/
theorem addTask_full_unchanged_witness :
    fullWorld.taskCount = MAX_TASKS ∧
    (addTask fullWorld).events = [Event.printf "Sorry, the to-do list is full.\n"] ∧
    (addTask fullWorld).stdin = "late\n".toList ∧
    (addTask fullWorld).taskCount = 50 ∧
    (addTask fullWorld).taskList = fullWorld.taskList :=
  ⟨by decide, addTask_full_unchanged fullWorld (by decide)⟩

/-- C5: in a non-empty store, when the number read is a position `p` with `1 ≤ p ≤ taskCount`
whose task is not complete, `markTaskComplete` sets the flag of the task at `p` to 1, reports
`Task marked as complete!`, and changes nothing else: the count, the description at `p` and
every task at another position are as before. -/
theorem markTaskComplete_marks_only_p (w : World) (p : Int) (rest : List Char) (hwf : WF w)
    (hne : w.taskCount ≠ 0) (hscan : scanfInt w.stdin = (some p, rest))
    (hlo : 1 ≤ p) (hhi : p ≤ w.taskCount) (hinc : (taskAt w (p - 1).toNat).isComplete ≠ 1) :
    (taskAt (markTaskComplete w) (p - 1).toNat).isComplete = 1 ∧
    (taskAt (markTaskComplete w) (p - 1).toNat).description
      = (taskAt w (p - 1).toNat).description ∧
    (markTaskComplete w).events = (viewTasks w).events ++
      [markPrompt, Event.printf "Task marked as complete!\n"] ∧
    (markTaskComplete w).taskCount = w.taskCount ∧
    (∀ i : Nat, i ≠ (p - 1).toNat → taskAt (markTaskComplete w) i = taskAt w i) := by
  obtain ⟨hlen, _, hcap⟩ := hwf
  have hidx : (p - 1).toNat < w.taskList.length := by
    unfold MAX_TASKS at hcap
    omega
  rw [markTaskComplete_eq_of_number w p rest hne hscan, if_neg (by omega), if_neg hinc]
  refine ⟨?_, ?_, rfl, rfl, ?_⟩
  · simp only [taskAt]
    rw [getD_set_self _ _ _ _ hidx]
  · simp only [taskAt]
    rw [getD_set_self _ _ _ _ hidx]
  · intro i hi
    simp only [taskAt]
    rw [getD_set_other _ _ _ _ _ (Ne.symm hi)]

/-- Witness for C5: marking the only task of a store. -/
theorem markTaskComplete_marks_only_p_witness :
    (taskAt (oneTaskWorld "1\n".toList) 0).isComplete ≠ 1 ∧
    (taskAt (markTaskComplete (oneTaskWorld "1\n".toList)) 0).isComplete = 1 ∧
    (taskAt (markTaskComplete (oneTaskWorld "1\n".toList)) 0).description = "A".toList ∧
    (markTaskComplete (oneTaskWorld "1\n".toList)).taskCount = 1 :=
  have h := markTaskComplete_marks_only_p (oneTaskWorld "1\n".toList) 1 ['\n']
    (by decide) (by decide) (by decide) (by decide) (by decide) (by decide)
  ⟨by decide, h.1, h.2.1, h.2.2.2.1⟩

/-- C6: in a non-empty store, two calls of `markTaskComplete` in a row that both read the same
valid position `p` leave the task at `p` complete after the first call and after the second; the
second call reports `That task is already complete.` and leaves the tasks and the count exactly
as the first call left them. -/
theorem markTaskComplete_twice (w : World) (p : Int) (r1 r2 : List Char) (hwf : WF w)
    (hne : w.taskCount ≠ 0) (hscan1 : scanfInt w.stdin = (some p, r1))
    (hscan2 : scanfInt (markTaskComplete w).stdin = (some p, r2))
    (hlo : 1 ≤ p) (hhi : p ≤ w.taskCount) :
    (taskAt (markTaskComplete w) (p - 1).toNat).isComplete = 1 ∧
    (taskAt (markTaskComplete (markTaskComplete w)) (p - 1).toNat).isComplete = 1 ∧
    (markTaskComplete (markTaskComplete w)).events = (viewTasks (markTaskComplete w)).events ++
      [markPrompt, Event.printf "That task is already complete.\n"] ∧
    (markTaskComplete (markTaskComplete w)).taskList = (markTaskComplete w).taskList ∧
    (markTaskComplete (markTaskComplete w)).taskCount = (markTaskComplete w).taskCount := by
  obtain ⟨hlen, _, hcap⟩ := hwf
  have hidx : (p - 1).toNat < w.taskList.length := by
    unfold MAX_TASKS at hcap
    omega
  have hcount : (markTaskComplete w).taskCount = w.taskCount := by
    rw [markTaskComplete_eq_of_number w p r1 hne hscan1]
    split_ifs <;> rfl
  have hfirst : (taskAt (markTaskComplete w) (p - 1).toNat).isComplete = 1 := by
    rw [markTaskComplete_eq_of_number w p r1 hne hscan1, if_neg (by omega)]
    split_ifs with hdone
    · exact hdone
    · simp only [taskAt]
      rw [getD_set_self _ _ _ _ hidx]
  have hne1 : (markTaskComplete w).taskCount ≠ 0 := by rwa [hcount]
  rw [markTaskComplete_eq_of_number (markTaskComplete w) p r2 hne1 hscan2,
    if_neg (by rw [hcount]; omega), if_pos hfirst]
  exact ⟨hfirst, hfirst, rfl, rfl, rfl⟩

/-- Witness for C6: marking the only task of a store twice. -/
theorem markTaskComplete_twice_witness :
    (taskAt (markTaskComplete (oneTaskWorld "1\n1\n".toList)) 0).isComplete = 1 ∧
    (taskAt (markTaskComplete (markTaskComplete (oneTaskWorld "1\n1\n".toList))) 0).isComplete
      = 1 ∧
    (markTaskComplete (markTaskComplete (oneTaskWorld "1\n1\n".toList))).taskList
      = (markTaskComplete (oneTaskWorld "1\n1\n".toList)).taskList :=
  have h := markTaskComplete_twice (oneTaskWorld "1\n1\n".toList) 1 "\n1\n".toList ['\n']
    (by decide) (by decide) (by decide) (by decide) (by decide) (by decide)
  ⟨h.1, h.2.1, h.2.2.2.1⟩

/-- C7: in a non-empty store, when the number read is an integer `p` with `p < 1` or
`p > taskCount`, `markTaskComplete` reports `Invalid task number.` and leaves every task and the
count unchanged. -/
theorem markTaskComplete_invalid_position (w : World) (p : Int) (rest : List Char)
    (hne : w.taskCount ≠ 0) (hscan : scanfInt w.stdin = (some p, rest))
    (hbad : p < 1 ∨ p > w.taskCount) :
    (markTaskComplete w).events = (viewTasks w).events ++
      [markPrompt, Event.printf "Invalid task number.\n"] ∧
    (markTaskComplete w).taskList = w.taskList ∧
    (markTaskComplete w).taskCount = w.taskCount := by
  rw [markTaskComplete_eq_of_number w p rest hne hscan, if_pos hbad]
  exact ⟨rfl, rfl, rfl⟩

/-- Witness for C7: position 2 in a store of one task. -/
theorem markTaskComplete_invalid_position_witness :
    ((2 : Int) < 1 ∨ (2 : Int) > (oneTaskWorld "2\n".toList).taskCount) ∧
    (markTaskComplete (oneTaskWorld "2\n".toList)).events =
      (viewTasks (oneTaskWorld "2\n".toList)).events ++
        [markPrompt, Event.printf "Invalid task number.\n"] ∧
    (markTaskComplete (oneTaskWorld "2\n".toList)).taskList
      = (oneTaskWorld "2\n".toList).taskList ∧
    (markTaskComplete (oneTaskWorld "2\n".toList)).taskCount = 1 :=
  ⟨by decide, markTaskComplete_invalid_position (oneTaskWorld "2\n".toList) 2 ['\n']
    (by decide) (by decide) (by decide)⟩

/-- C8: on an empty store (`taskCount = 0`) `markTaskComplete` emits the single message
`You have no tasks to mark.` (no task listing, no position prompt), consumes nothing of the input
stream, whatever it holds, and leaves the store as it was. -/
theorem markTaskComplete_empty_store (w : World) (hempty : w.taskCount = 0) :
    (markTaskComplete w).events = w.events ++ [Event.printf "You have no tasks to mark.\n"] ∧
    (markTaskComplete w).stdin = w.stdin ∧
    (markTaskComplete w).taskCount = 0 ∧
    (markTaskComplete w).taskList = w.taskList := by
  rw [markTaskComplete_eq_of_empty w hempty]
  exact ⟨rfl, rfl, hempty, rfl⟩

/-- Witness for C8: the fresh store with the line `1` waiting. -/
theorem markTaskComplete_empty_store_witness :
    (initWorld "1\n".toList).taskCount = 0 ∧
    (markTaskComplete (initWorld "1\n".toList)).events
      = [Event.printf "You have no tasks to mark.\n"] ∧
    (markTaskComplete (initWorld "1\n".toList)).stdin = "1\n".toList ∧
    (markTaskComplete (initWorld "1\n".toList)).taskCount = 0 ∧
    (markTaskComplete (initWorld "1\n".toList)).taskList = (initWorld "1\n".toList).taskList :=
  ⟨rfl, markTaskComplete_empty_store (initWorld "1\n".toList) rfl⟩

/-- The function `viewTasks` leaves both globals alone. -/
theorem viewTasks_store (w : World) : store (viewTasks w) = store w := by
  rw [viewTasks_eq]
  rfl

/-- Clearing the screen and printing the menu read nothing. -/
theorem printMenu_stdin (w : World) : (printMenu (clearScreen w)).stdin = w.stdin := rfl

/-- The pass of the main loop when `scanf` converts nothing: the `continue` path. -/
theorem mainBody_of_malformed (w : World) (rest : List Char)
    (hscan : scanfInt w.stdin = (none, rest)) :
    mainBody w =
      (clearInputBuffer (print "Error: Invalid input. Please enter a number (1-4).\n"
        { printMenu (clearScreen w) with stdin := rest }), 0) := by
  unfold mainBody
  simp only [printMenu_stdin, hscan]

/-- The pass of the main loop when `scanf` stores `choice`: the `switch`, then the pause unless
the choice is 4. -/
theorem mainBody_of_choice (w : World) (choice : Int) (rest : List Char)
    (hscan : scanfInt w.stdin = (some choice, rest)) :
    mainBody w =
      (if choice ≠ 4 then
        pauseScreen
          (if choice = 1 then
            addTask (clearScreen (afterChoice w rest))
          else if choice = 2 then
            viewTasks (clearScreen (afterChoice w rest))
          else if choice = 3 then
            markTaskComplete (clearScreen (afterChoice w rest))
          else
            print "\nInvalid choice. Please pick a number from 1 to 4.\n" (afterChoice w rest))
       else print "\nGoodbye!\n" (afterChoice w rest),
       choice) := by
  unfold mainBody afterChoice
  simp only [printMenu_stdin, hscan]
  by_cases h4 : choice = 4
  · subst h4
    simp
  · simp [h4]

/-- The menu and the line clearing after the choice leave both globals alone. -/
theorem store_menu (w : World) (rest : List Char) :
    store (afterChoice w rest) = store w := by
  simp [store, afterChoice, clearInputBuffer, printMenu, print, clearScreen]

/-- A `printf` leaves both globals alone. -/
theorem store_print (s : String) (w : World) : store (print s w) = store w := rfl

/-- Discarding a line of input leaves both globals alone. -/
theorem store_clearInputBuffer (w : World) : store (clearInputBuffer w) = store w := rfl

/-- The pause leaves both globals alone. -/
theorem store_pauseScreen (w : World) : store (pauseScreen w) = store w := rfl

/-- A pass of the main loop changes the globals as one call of `addTask` or of
`markTaskComplete` would, or not at all. -/
theorem mainBody_store (w : World) :
    ∃ w0 : World, store w0 = store w ∧
      (store (mainBody w).1 = store w0 ∨ store (mainBody w).1 = store (addTask w0) ∨
        store (mainBody w).1 = store (markTaskComplete w0)) := by
  rcases hscan : scanfInt w.stdin with ⟨_ | choice, rest⟩
  · rw [mainBody_of_malformed w rest hscan]
    refine ⟨w, rfl, Or.inl ?_⟩
    simp only [store_clearInputBuffer, store_print]
    rfl
  · rw [mainBody_of_choice w choice rest hscan]
    by_cases h4 : choice = 4
    · rw [if_neg (not_not.mpr h4)]
      refine ⟨w, rfl, Or.inl ?_⟩
      simp only [store_print, store_menu]
    · rw [if_pos h4]
      simp only [store_pauseScreen]
      by_cases h1 : choice = 1
      · rw [if_pos h1]
        exact ⟨clearScreen (afterChoice w rest),
          store_menu w rest, Or.inr (Or.inl rfl)⟩
      · rw [if_neg h1]
        by_cases h2 : choice = 2
        · rw [if_pos h2]
          refine ⟨w, rfl, Or.inl ?_⟩
          rw [viewTasks_store]
          exact store_menu w rest
        · rw [if_neg h2]
          by_cases h3 : choice = 3
          · rw [if_pos h3]
            exact ⟨clearScreen (afterChoice w rest),
              store_menu w rest, Or.inr (Or.inr rfl)⟩
          · rw [if_neg h3]
            refine ⟨w, rfl, Or.inl ?_⟩
            simp only [store_print, store_menu]

/-- Closed form of `addTask` when there is room and the stream is at end-of-file. -/
theorem addTask_eq_of_eof (w : World) (hroom : w.taskCount < MAX_TASKS) (hin : w.stdin = []) :
    addTask w = { w with events := w.events ++
      [Event.printf "Enter task description: ",
       Event.printf "Error reading input. Task not added.\n"] } := by
  have h : ¬ (w.taskCount ≥ MAX_TASKS) := not_le.mpr hroom
  simp [addTask, h, print, fgets, hin]

/-- Leaving the globals alone is a store step. -/
theorem storeStep_of_eq {w w2 : World} (h : store w2 = store w) :
    StoreStep (store w) (store w2) := by
  rw [h]
  exact StoreStep.same

/-- The function `addTask` makes a store step. -/
theorem storeStep_addTask (w : World) : StoreStep (store w) (store (addTask w)) := by
  by_cases hfull : w.taskCount ≥ MAX_TASKS
  · rw [addTask_eq_of_full w hfull]
    exact StoreStep.same
  · have hroom : w.taskCount < MAX_TASKS := not_le.mp hfull
    by_cases hin : w.stdin = []
    · rw [addTask_eq_of_eof w hroom hin]
      exact StoreStep.same
    · rw [addTask_eq_of_room w hroom hin]
      exact StoreStep.add _ hroom

/-- The function `viewTasks` makes a store step. -/
theorem storeStep_viewTasks (w : World) : StoreStep (store w) (store (viewTasks w)) :=
  storeStep_of_eq (viewTasks_store w)

/-- The function `markTaskComplete` makes a store step. -/
theorem storeStep_markTaskComplete (w : World) :
    StoreStep (store w) (store (markTaskComplete w)) := by
  by_cases hne : w.taskCount = 0
  · rw [markTaskComplete_eq_of_empty w hne]
    exact StoreStep.same
  · rcases hscan : scanfInt w.stdin with ⟨_ | p, rest⟩
    · rw [markTaskComplete_eq_of_malformed w rest hne hscan]
      exact StoreStep.same
    · rw [markTaskComplete_eq_of_number w p rest hne hscan]
      split_ifs with hbad hdone
      · exact StoreStep.same
      · exact StoreStep.same
      · have hi : (((p - 1).toNat : Nat) : Int) < w.taskCount := by omega
        exact StoreStep.mark (p - 1).toNat hi

/-- A pass of the main loop makes a store step. -/
theorem storeStep_mainBody (w : World) : StoreStep (store w) (store (mainBody w).1) := by
  obtain ⟨w0, h0, h | h | h⟩ := mainBody_store w
  · rw [h, h0]
    exact StoreStep.same
  · rw [h, ← h0]
    exact storeStep_addTask w0
  · rw [h, ← h0]
    exact storeStep_markTaskComplete w0

/-- Store steps keep the store invariant. -/
theorem WF_of_storeStep {w w2 : World} (hwf : WF w) (h : StoreStep (store w) (store w2)) :
    WF w2 := by
  obtain ⟨hlen, h0, hcap⟩ := hwf
  unfold WF
  generalize hs : store w2 = s2 at h
  have htl : w2.taskList = s2.1 := by rw [← hs]; rfl
  have htc : w2.taskCount = s2.2 := by rw [← hs]; rfl
  rw [htl, htc]
  cases h with
  | same => exact ⟨hlen, h0, hcap⟩
  | add d hroom =>
    simp only [store, List.length_set] at hroom ⊢
    unfold MAX_TASKS at hroom ⊢
    exact ⟨hlen, by omega, by omega⟩
  | mark i hi =>
    simp only [store, List.length_set]
    exact ⟨hlen, h0, hcap⟩

/-- Store steps keep complete tasks in place and complete. -/
theorem staysComplete_of_storeStep {w w2 : World} (h : StoreStep (store w) (store w2)) :
    StaysComplete w w2 := by
  generalize hs : store w2 = s2 at h
  have htl : w2.taskList = s2.1 := by rw [← hs]; rfl
  have htc : w2.taskCount = s2.2 := by rw [← hs]; rfl
  intro i hi hdone
  unfold taskAt at hdone ⊢
  rw [htl, htc]
  cases h with
  | same => exact ⟨hi, rfl, hdone⟩
  | add d hroom =>
    simp only [store] at hroom ⊢
    have hne : w.taskCount.toNat ≠ i := by omega
    rw [getD_set_other _ _ _ _ _ hne]
    exact ⟨by omega, rfl, hdone⟩
  | mark j hj =>
    simp only [store] at hj ⊢
    refine ⟨hi, ?_⟩
    by_cases hij : j = i
    · subst hij
      by_cases hlt : j < w.taskList.length
      · rw [getD_set_self _ _ _ _ hlt]
        exact ⟨rfl, rfl⟩
      · rw [List.set_eq_of_length_le (not_lt.mp hlt)]
        exact ⟨rfl, hdone⟩
    · rw [getD_set_other _ _ _ _ _ hij]
      exact ⟨rfl, hdone⟩

/-- A store step that changes the count adds one incomplete task. -/
theorem createsIncomplete_of_storeStep {w w2 : World} (hwf : WF w)
    (h : StoreStep (store w) (store w2)) : CreatesIncomplete w w2 := by
  obtain ⟨hlen, h0, hcap⟩ := hwf
  generalize hs : store w2 = s2 at h
  have htl : w2.taskList = s2.1 := by rw [← hs]; rfl
  have htc : w2.taskCount = s2.2 := by rw [← hs]; rfl
  intro hchg
  unfold taskAt
  rw [htl, htc] at *
  cases h with
  | same => exact absurd rfl hchg
  | add d hroom =>
    simp only [store] at hroom ⊢
    have hslot : w.taskCount.toNat < w.taskList.length := by
      unfold MAX_TASKS at hroom
      omega
    rw [getD_set_self _ _ _ _ hslot]
    exact ⟨trivial, rfl⟩
  | mark j hj => exact absurd rfl hchg

/-- The initial state satisfies the store invariant. -/
theorem WF_initWorld (input : List Char) : WF (initWorld input) := by
  unfold WF initWorld MAX_TASKS
  simp

/-- Every reachable state satisfies the store invariant. -/
theorem reachable_WF {w : World} {choice : Int} (h : Reachable w choice) : WF w := by
  induction h with
  | start input => exact WF_initWorld input
  | pass w c _ _ ih => exact WF_of_storeStep ih (storeStep_mainBody w)

/-- A pass that starts at end-of-file leaves `choice = 0` and the stream at end-of-file. -/
theorem mainBody_at_eof (w : World) (heof : w.stdin = []) :
    (mainBody w).2 = 0 ∧ (mainBody w).1.stdin = [] := by
  have hscan : scanfInt w.stdin = (none, []) := by
    rw [heof]
    rfl
  rw [mainBody_of_malformed w [] hscan]
  exact ⟨rfl, rfl⟩

/-- Started at end-of-file, the loop is still running after any number of passes. -/
theorem mainLoop_at_eof : ∀ (fuel : Nat) (w : World), w.stdin = [] → mainLoop fuel w = none
  | 0, _, _ => rfl
  | fuel + 1, w, heof => by
    obtain ⟨hc, hs⟩ := mainBody_at_eof w heof
    unfold mainLoop
    rw [hc, if_pos (by decide)]
    exact mainLoop_at_eof fuel _ hs

/-- What `addTask` writes when it reads the description `d` and there is room. -/
theorem addTask_of_reads (w : World) (inp d : List Char) (hroom : w.taskCount < MAX_TASKS)
    (h : ReadsDescription inp d) :
    (addTask { w with stdin := inp }).taskList
        = w.taskList.set w.taskCount.toNat { description := d, isComplete := 0 } ∧
      (addTask { w with stdin := inp }).taskCount = w.taskCount + 1 := by
  cases inp with
  | nil => simp [ReadsDescription, fgets] at h
  | cons c cs =>
    have hd : cString ((lineText (c :: cs)).take 149) = d := by
      simpa [ReadsDescription, fgets, MAX_LENGTH, description_read] using h
    subst hd
    rw [addTask_eq_of_room { w with stdin := c :: cs } hroom (by simp)]
    exact ⟨rfl, rfl⟩

/-- After a run of successful adds the count has grown by their number, the old tasks are
unchanged and the new ones are incomplete with the descriptions read, in order. -/
theorem addEach_tasks {inputs ds : List (List Char)}
    (hadds : List.Forall₂ ReadsDescription inputs ds) :
    ∀ w : World, WF w → w.taskCount + ds.length ≤ 50 →
      (addEach w inputs).taskCount = w.taskCount + ds.length ∧
      (∀ i : Nat, (i : Int) < w.taskCount → taskAt (addEach w inputs) i = taskAt w i) ∧
      (∀ j : Nat, j < ds.length →
        taskAt (addEach w inputs) (w.taskCount.toNat + j)
          = { description := ds.getD j [], isComplete := 0 }) := by
  induction hadds with
  | nil =>
    intro w _ _
    simp [addEach]
  | @cons inp d more ds2 hread _ ih =>
    intro w hwf hcap
    obtain ⟨hlen, h0, _⟩ := hwf
    have hroom : w.taskCount < MAX_TASKS := by
      unfold MAX_TASKS
      simp only [List.length_cons] at hcap
      omega
    obtain ⟨htl, htc⟩ := addTask_of_reads w inp d hroom hread
    have hwf1 : WF (addTask { w with stdin := inp }) :=
      WF_of_storeStep (w := { w with stdin := inp }) ⟨hlen, h0, by assumption⟩
        (storeStep_addTask _)
    have hcap1 : (addTask { w with stdin := inp }).taskCount + (ds2.length : Int) ≤ 50 := by
      rw [htc]
      simp only [List.length_cons] at hcap
      push_cast at hcap
      omega
    obtain ⟨ihc, ihold, ihnew⟩ := ih _ hwf1 hcap1
    have hslot : w.taskCount.toNat < w.taskList.length := by
      unfold MAX_TASKS at hroom
      omega
    have hkeep : ∀ i : Nat, (i : Int) ≤ w.taskCount →
        taskAt (addEach w (inp :: more)) i = taskAt (addTask { w with stdin := inp }) i := by
      intro i hi
      exact ihold i (by rw [htc]; omega)
    refine ⟨?_, ?_, ?_⟩
    · show (addEach (addTask { w with stdin := inp }) more).taskCount = _
      rw [ihc, htc]
      simp only [List.length_cons]
      push_cast
      omega
    · intro i hi
      rw [hkeep i (le_of_lt hi)]
      unfold taskAt
      rw [htl, getD_set_other _ _ _ _ _ (by omega)]
    · intro j hj
      cases j with
      | zero =>
        rw [Nat.add_zero, hkeep _ (by omega)]
        unfold taskAt
        rw [htl, getD_set_self _ _ _ _ hslot]
        simp
      | succ j2 =>
        have hidx : w.taskCount.toNat + (j2 + 1)
            = (addTask { w with stdin := inp }).taskCount.toNat + j2 := by
          rw [htc]
          omega
        have hj2 : j2 < ds2.length := by
          simp only [List.length_cons] at hj
          omega
        rw [hidx]
        show taskAt (addEach (addTask { w with stdin := inp }) more) _ = _
        rw [ihnew j2 hj2]
        simp

/-- The line `viewTasks` prints for an incomplete task. -/
theorem taskLine_incomplete (i : Nat) (d : List Char) :
    taskLine i { description := d, isComplete := 0 }
      = toString (i + 1) ++ ". [ ] " ++ String.mk d ++ "\n" := by
  unfold taskLine
  simp only [show ¬ ((0 : Int) = 1) by decide, if_false, String.append_assoc]
  rfl

/-- C4: `viewTasks` prints the header and then, for an empty store, `You have no tasks.` and no
task line; otherwise one line per stored task, in order of position, the line of position `i`
being `i. [X] description` when the task is complete and `i. [ ] description` when it is not.
After `N ≤ 50` successful adds with descriptions `d1..dN` on a fresh store the count is `N` and
the lines are `i. [ ] di` for `i = 1..N`. -/
theorem viewTasks_lists_tasks_in_order :
    (∀ w : World, (viewTasks w).events = w.events ++ Event.printf "\n--- Your Tasks ---\n" ::
      (if w.taskCount = 0 then [Event.printf "You have no tasks.\n"]
       else (List.range w.taskCount.toNat).map (fun i => Event.printf
         (toString (i + 1) ++ ". [" ++ (if (taskAt w i).isComplete = 1 then "X" else " ") ++ "] "
           ++ String.mk (taskAt w i).description ++ "\n")))) ∧
    (∀ (input : List Char) (inputs ds : List (List Char)), ds.length ≤ 50 →
      List.Forall₂ ReadsDescription inputs ds →
      (addEach (initWorld input) inputs).taskCount = ds.length ∧
      (viewTasks (addEach (initWorld input) inputs)).events =
        (addEach (initWorld input) inputs).events ++ Event.printf "\n--- Your Tasks ---\n" ::
          (if ds.length = 0 then [Event.printf "You have no tasks.\n"]
           else (List.range ds.length).map (fun i => Event.printf
             (toString (i + 1) ++ ". [ ] " ++ String.mk (ds.getD i []) ++ "\n")))) := by
  constructor
  · intro w
    rw [viewTasks_eq]
    rfl
  · intro input inputs ds hN hadds
    obtain ⟨hc, _, hnew⟩ := addEach_tasks hadds (initWorld input) (WF_initWorld input)
      (by simp only [initWorld]; omega)
    have hc2 : (addEach (initWorld input) inputs).taskCount = ds.length := by
      rw [hc]
      simp [initWorld]
    refine ⟨hc2, ?_⟩
    rw [viewTasks_eq, hc2]
    simp only [Int.toNat_ofNat, Nat.cast_eq_zero]
    congr 2
    split_ifs
    · rfl
    · apply List.map_congr_left
      intro i hi
      have h := hnew i (List.mem_range.mp hi)
      have h0 : (initWorld input).taskCount.toNat + i = i := by simp [initWorld]
      rw [h0] at h
      rw [h, taskLine_incomplete]

/-- Witness for C4: the tasks `A` and `B` added to the fresh store. -/
theorem viewTasks_lists_tasks_in_order_witness :
    (addEach (initWorld []) ["A\n".toList, "B\n".toList]).taskCount = 2 ∧
    (viewTasks (addEach (initWorld []) ["A\n".toList, "B\n".toList])).events =
      [Event.printf "Enter task description: ", Event.printf "Task added!\n",
       Event.printf "Enter task description: ", Event.printf "Task added!\n",
       Event.printf "\n--- Your Tasks ---\n",
       Event.printf "1. [ ] A\n", Event.printf "2. [ ] B\n"] :=
  have h := viewTasks_lists_tasks_in_order.2 [] ["A\n".toList, "B\n".toList]
    ["A".toList, "B".toList] (by decide)
    (List.Forall₂.cons (by decide) (List.Forall₂.cons (by decide) List.Forall₂.nil))
  ⟨h.1, h.2.trans (by decide)⟩

/-- C3: in every state the loop of `main` reaches from the empty store, whatever the input
stream and whatever menu actions it drives, `0 ≤ taskCount ≤ 50`. -/
theorem taskCount_within_capacity (w : World) (choice : Int) (h : Reachable w choice) :
    0 ≤ w.taskCount ∧ w.taskCount ≤ 50 :=
  ⟨(reachable_WF h).2.1, (reachable_WF h).2.2⟩

/-- Witness for C3: the state after one pass that adds the task `Buy milk`. -/
theorem taskCount_within_capacity_witness :
    0 ≤ (mainBody (initWorld "1\nBuy milk\n\n".toList)).1.taskCount ∧
    (mainBody (initWorld "1\nBuy milk\n\n".toList)).1.taskCount ≤ 50 :=
  taskCount_within_capacity _ _
    (Reachable.pass _ _ (Reachable.start "1\nBuy milk\n\n".toList) (by decide))

/-- C9: `Complete` is terminal.  In every state satisfying the store invariant (so in every
reachable state), for each operation of the program (`addTask`, `viewTasks`,
`markTaskComplete`, a whole pass of the menu loop) and whatever the input stream holds: a task
the operation creates is incomplete, and a task that is complete at a position before the
operation is afterwards still at that position, with the same description, and still complete. -/
theorem complete_is_terminal (w : World) (hwf : WF w) :
    (CreatesIncomplete w (addTask w) ∧ StaysComplete w (addTask w)) ∧
    (CreatesIncomplete w (viewTasks w) ∧ StaysComplete w (viewTasks w)) ∧
    (CreatesIncomplete w (markTaskComplete w) ∧ StaysComplete w (markTaskComplete w)) ∧
    (CreatesIncomplete w (mainBody w).1 ∧ StaysComplete w (mainBody w).1) :=
  ⟨⟨createsIncomplete_of_storeStep hwf (storeStep_addTask w),
      staysComplete_of_storeStep (storeStep_addTask w)⟩,
    ⟨createsIncomplete_of_storeStep hwf (storeStep_viewTasks w),
      staysComplete_of_storeStep (storeStep_viewTasks w)⟩,
    ⟨createsIncomplete_of_storeStep hwf (storeStep_markTaskComplete w),
      staysComplete_of_storeStep (storeStep_markTaskComplete w)⟩,
    ⟨createsIncomplete_of_storeStep hwf (storeStep_mainBody w),
      staysComplete_of_storeStep (storeStep_mainBody w)⟩⟩

/-- Witness for C9: the store with the complete task `A`, about to mark it again. -/
theorem complete_is_terminal_witness :
    WF (doneTaskWorld "3\n1\n\n".toList) ∧
    (taskAt (doneTaskWorld "3\n1\n\n".toList) 0).isComplete = 1 ∧
    StaysComplete (doneTaskWorld "3\n1\n\n".toList)
      (mainBody (doneTaskWorld "3\n1\n\n".toList)).1 ∧
    StaysComplete (doneTaskWorld "3\n1\n\n".toList) (addTask (doneTaskWorld "3\n1\n\n".toList)) :=
  have h := complete_is_terminal (doneTaskWorld "3\n1\n\n".toList) (by decide)
  ⟨by decide, by decide, h.2.2.2.2, h.1.2⟩

/-- The loop does end when the choice 4 is read: `main` returns 0 after one pass on the
input `4`. -/
theorem main_returns_on_exit_choice : (main 1 "4\n".toList).map Prod.snd = some 0 := by
  decide

/-- C10 (the code does not do this): at end-of-file on the menu prompt the loop of `main` never
ends.  From any store, once the input stream is exhausted, no number of passes makes `main`
return: every pass finds `scanf` failing, resets `choice` to 0 and starts over. -/
theorem main_loops_forever_at_eof (fuel : Nat) (w : World) :
    mainLoop fuel { w with stdin := [] } = none ∧ main fuel [] = none :=
  ⟨mainLoop_at_eof fuel _ rfl, mainLoop_at_eof fuel _ rfl⟩

end ToDo
